import Mathlib

/-!
Shallow embedding of the `nvidia-applet` repository's telemetry pipeline.

Producer side (the Cinnamon applet, `applet.js` — the current version with
monitor support): `parse_and_display` decodes one sampler line, pushes a
sample onto `this.history`, and streams it to the external monitor child
process via `_sendToMonitor`; `_openMonitor` spawns the child and replays
the history; a `wait_check_async` callback nulls the Connection handles on
child exit.  JavaScript numbers are modelled as `Option ℚ` (`none` = NaN);
JS strings as Lean `String` / `List Char`.

Consumer side (`scripts/monitor.py`) is not part of the source tree; where
a claim needs it, the definitions are modelled from the specification (and
the repository's own technical documentation, which quotes the relevant
snippets) and are marked `Modelled from the spec:` in their doc comments.
-/

namespace NvidiaApplet

/-- A JavaScript number as this code base produces it: a rational value, or
NaN modelled as `none` (arising from `parseFloat` on malformed fields).
Infinities never arise on the modelled paths (division is guarded by
`memTotal > 0`). -/
abbrev JSNum := Option ℚ

/-- JS comparison `a > b` against a finite bound: any comparison with NaN is
`false`. -/
def jsGt (a : JSNum) (b : ℚ) : Bool :=
  match a with
  | some x => decide (b < x)
  | none => false

/-- JS division `a / b` with NaN propagation; in `parse_and_display` it is
only reached under the guard `memTotal > 0`, so the `y = 0` branch (which JS
would make an infinity) is unreachable there and mapped to NaN. -/
def jsDiv (a b : JSNum) : JSNum :=
  match a, b with
  | some x, some y => if y = 0 then none else some (x / y)
  | _, _ => none

/-- JS multiplication by a literal (`this._memUsedPercent * 100`), with NaN
propagation. -/
def jsMul (a : JSNum) (k : ℚ) : JSNum := a.map (fun x => x * k)

/-- Numeric value of a big-endian list of decimal digit characters. -/
def digitsVal (cs : List Char) : ℕ :=
  cs.foldl (fun a c => 10 * a + (c.toNat - 48)) 0

/-- Model of JS `parseFloat` on the characters of the field: skip leading
whitespace, optional sign, decimal digits with an optional fractional part;
trailing characters are ignored (so `parseFloat("2048 MiB") = 2048`); NaN
when no digit is present.  Exponent notation never occurs in this code
base's inputs and is not modelled. -/
def parseFloat (s : List Char) : JSNum :=
  let cs := s.dropWhile (fun c => c.isWhitespace)
  let sign : ℚ := if cs.head? = some '-' then -1 else 1
  let cs := if cs.head? = some '-' ∨ cs.head? = some '+' then cs.tail else cs
  let ip := cs.takeWhile (fun c => c.isDigit)
  let rest := cs.dropWhile (fun c => c.isDigit)
  let fp := if rest.head? = some '.' then rest.tail.takeWhile (fun c => c.isDigit) else []
  if ip.isEmpty ∧ fp.isEmpty then none
  else some (sign * ((digitsVal ip : ℚ) + (digitsVal fp : ℚ) / (10 : ℚ) ^ fp.length))

/-- One sample as pushed onto `history` and streamed to the monitor by
`parse_and_display`: the JS object literal `{gpu, mem, temp, fan}` (in
insertion order). -/
structure SamplePoint where
  gpu : JSNum
  mem : JSNum
  temp : JSNum
  fan : JSNum
deriving DecidableEq, Repr

/-- Decimal digit character for a digit `d < 10`. -/
def digitChar (d : ℕ) : Char := Char.ofNat (48 + d)

/-- Decimal representation of a natural number, big-endian. -/
def natReprChars (n : ℕ) : List Char :=
  if n = 0 then ['0'] else (Nat.digits 10 n).reverse.map digitChar

/-- Decimal representation of an integer. -/
def intReprChars : ℤ → List Char
  | Int.ofNat n => natReprChars n
  | Int.negSucc n => '-' :: natReprChars (n + 1)

/-- Serialized form of a rational number: integral values print exactly as
`JSON.stringify` prints them; non-integral rationals print abstractly as
`num/den` (JavaScript prints a decimal expansion of the underlying double —
no claim depends on those digits, and every value the claims exercise is
integral). -/
def qReprChars (q : ℚ) : List Char :=
  if q.den = 1 then intReprChars q.num
  else intReprChars q.num ++ '/' :: natReprChars q.den

/-- Serialized JSON value of one numeric field: `JSON.stringify` prints NaN
as `null`. -/
def jsonNumChars (x : JSNum) : List Char :=
  match x with
  | none => ['n', 'u', 'l', 'l']
  | some q => qReprChars q

/-- Key/value structure of the streamed JSON object, in `JSON.stringify`
key order, which is the object-literal insertion order used in
`parse_and_display` when it calls `_sendToMonitor`. -/
def encodeFields (s : SamplePoint) : List (String × JSNum) :=
  [("gpu", s.gpu), ("mem", s.mem), ("temp", s.temp), ("fan", s.fan)]

/-- Serialized `"key":value` fragment of one field. -/
def fieldChars (f : String × JSNum) : List Char :=
  '"' :: f.1.data ++ '"' :: ':' :: jsonNumChars f.2

/-- Comma-join of serialized fragments. -/
def joinComma : List (List Char) → List Char
  | [] => []
  | [x] => x
  | x :: y :: xs => x ++ ',' :: joinComma (y :: xs)

/-- Full `JSON.stringify(data)` for one sample. -/
def encodeRecord (s : SamplePoint) : List Char :=
  '\x7b' :: joinComma ((encodeFields s).map fieldChars) ++ ['\x7d']

/-- One wire record as `_sendToMonitor` writes it:
`JSON.stringify(data) + "\n"`. -/
def sendRecord (s : SamplePoint) : List Char := encodeRecord s ++ ['\n']

/-- Producer-side state relevant to the telemetry pipeline: the history
buffer, the two Connection handles `_monitorProc` / `_monitorStdin`
(modelled as liveness flags, `false` standing for JS `null`), and the
sequence of records successfully written to the pipe. -/
structure AppletState where
  history : List SamplePoint
  monitorProc : Bool
  monitorStdin : Bool
  sent : List (List Char)
deriving DecidableEq, Repr

/-- Model of `_sendToMonitor(data)`: return immediately unless both handles
are live; otherwise serialize and write one newline-terminated record and
flush.  `writeOk = false` models `write_bytes`/`flush` raising (broken
pipe): the exception is caught, both handles are nulled, nothing else
changes, and the caller never sees the error (the function is total). -/
def sendToMonitor (writeOk : Bool) (data : SamplePoint) (s : AppletState) : AppletState :=
  if ¬s.monitorProc ∨ ¬s.monitorStdin then s
  else if writeOk then { s with sent := s.sent ++ [sendRecord data] }
  else { s with monitorProc := false, monitorStdin := false }

/-- Replay loop of `_openMonitor`:
`for (let point of this.history) this._sendToMonitor(point);`
where `wok i` tells whether the i-th write succeeds. -/
def replay (wok : ℕ → Bool) (i : ℕ) : List SamplePoint → AppletState → AppletState
  | [], s => s
  | p :: ps, s => replay wok (i + 1) ps (sendToMonitor (wok i) p s)

/-- Model of `_openMonitor()`: a no-op if `_monitorProc` is already set;
otherwise spawn the child (`spawnOk = false` models `Gio.Subprocess.new`
raising — the exception is caught and the state left unchanged), set both
handles, and replay the entire current history through `_sendToMonitor` in
chronological order.  The `wait_check_async` exit callback it registers is
`exitWatcher` below. -/
def openMonitor (spawnOk : Bool) (wok : ℕ → Bool) (s : AppletState) : AppletState :=
  if s.monitorProc then s
  else if spawnOk then
    replay wok 0 s.history { s with monitorProc := true, monitorStdin := true }
  else s

/-- Model of the `wait_check_async` callback registered in `_openMonitor`:
on observing child termination it nulls both Connection handles. -/
def exitWatcher (s : AppletState) : AppletState :=
  { s with monitorProc := false, monitorStdin := false }

/-- Successive live `publish(sample)` calls (each a `_sendToMonitor` with a
successful write), in order. -/
def publishAll : List SamplePoint → AppletState → AppletState
  | [], s => s
  | p :: ps, s => publishAll ps (sendToMonitor true p s)

/-- Whitespace trim of both ends (JS `String.prototype.trim`). -/
def trimChars (cs : List Char) : List Char :=
  ((cs.dropWhile (fun c => c.isWhitespace)).reverse.dropWhile
    (fun c => c.isWhitespace)).reverse

/-- Worker for `splitOnChar`, carrying the current field reversed. -/
def splitOnCharAux (sep : Char) : List Char → List Char → List (List Char)
  | [], acc => [acc.reverse]
  | c :: rest, acc =>
    if c = sep then acc.reverse :: splitOnCharAux sep rest []
    else splitOnCharAux sep rest (c :: acc)

/-- JS `String.prototype.split` with a one-character separator. -/
def splitOnChar (sep : Char) (cs : List Char) : List (List Char) :=
  splitOnCharAux sep cs []

/-- JS `output.trim().split(',').map(s => s.trim())`. -/
def splitFields (output : String) : List (List Char) :=
  (splitOnChar ',' (trimChars output.data)).map trimChars

/-- JS `s.replace(/ /g, "_")`. -/
def underscoreSpaces (cs : List Char) : List Char :=
  cs.map (fun c => if c = ' ' then '_' else c)

/-- Values computed from one sampler line by `parse_and_display` in the
current applet.  `tempRaw` is `parts[0]` (kept as a string for display);
`temp` is `this._tempValue = parseFloat(temp)`. -/
structure ParsedLine where
  tempRaw : List Char
  temp : JSNum
  memUsed : JSNum
  memTotal : JSNum
  gpuUtil : JSNum
  fanSpeed : JSNum
  ts : List Char
  memUsedPercent : JSNum
deriving DecidableEq, Repr

/-- Decode step of `parse_and_display` in the current applet: requires at
least 6 comma-separated fields (`if (parts.length < 6) return;`), reads
`parts[0]` through `parts[5]`, and computes
`_memUsedPercent = memTotal > 0 ? memUsed / memTotal : 0`. -/
def parseLine (output : String) : Option ParsedLine :=
  match splitFields output with
  | t :: mu :: mt :: gu :: fs :: ts :: _ =>
    let memUsed := parseFloat mu
    let memTotal := parseFloat mt
    some { tempRaw := t, temp := parseFloat t, memUsed, memTotal,
           gpuUtil := parseFloat gu, fanSpeed := parseFloat fs,
           ts := underscoreSpaces ts,
           memUsedPercent := if jsGt memTotal 0 then jsDiv memUsed memTotal else some 0 }
  | _ => none

/-- Values computed from one sampler line by the legacy `parse_and_display`
(the `applet.js` variant without monitor support): it requires at least 5
fields (`if (parts.length < 5) return;`) and has no timestamp field; `temp`
stays a raw string there. -/
structure ParsedLineLegacy where
  temp : List Char
  memUsed : JSNum
  memTotal : JSNum
  gpuUtil : JSNum
  fanSpeed : JSNum
  memUsedPercent : JSNum
deriving DecidableEq, Repr

/-- Decode step of the legacy `parse_and_display`. -/
def parseLineLegacy (output : String) : Option ParsedLineLegacy :=
  match splitFields output with
  | t :: mu :: mt :: gu :: fs :: _ =>
    let memUsed := parseFloat mu
    let memTotal := parseFloat mt
    some { temp := t, memUsed, memTotal,
           gpuUtil := parseFloat gu, fanSpeed := parseFloat fs,
           memUsedPercent := if jsGt memTotal 0 then jsDiv memUsed memTotal else some 0 }
  | _ => none

/-- Sample point built in `parse_and_display`:
`{gpu: gpuUtil, mem: this._memUsedPercent * 100, temp: this._tempValue,
fan: fanSpeed}` — pushed onto `history` and passed to `_sendToMonitor`. -/
def pointOf (r : ParsedLine) : SamplePoint :=
  { gpu := r.gpuUtil, mem := jsMul r.memUsedPercent 100, temp := r.temp, fan := r.fanSpeed }

/-- The constant `this.max_history_points = 43200` from the applet's
constructor. -/
def max_history_points : ℕ := 43200

/-- Pipeline effect of one `parse_and_display(output)` call in the current
applet: on a successful decode, push the sample onto `history`
(`this.history.push(...)` — the source contains no trimming of `history`
anywhere) and send it to the monitor.  The POC log-file write and the
label/pie updates touch no pipeline state and are omitted. -/
def parseAndDisplay (writeOk : Bool) (output : String) (s : AppletState) : AppletState :=
  match parseLine output with
  | none => s
  | some r => sendToMonitor writeOk (pointOf r) { s with history := s.history ++ [pointOf r] }

/-- Iterated sampling ticks, each running `parse_and_display` on the same
sampler output. -/
def ticks (writeOk : Bool) (output : String) : ℕ → AppletState → AppletState
  | 0, s => s
  | n + 1, s => ticks writeOk output n (parseAndDisplay writeOk output s)

/-- Worker for `splitNl`, carrying the partial record read so far. -/
def splitNlAux : List Char → List Char → List (List Char)
  | [], _ => []
  | c :: rest, acc =>
    if c = '\n' then acc :: splitNlAux rest [] else splitNlAux rest (acc ++ [c])

/-- Modelled from the spec: the consumer-side Stream Decoder's record
cutting (`scripts/monitor.py` is absent from the source tree) — cut a
complete record at every newline delimiter; a trailing partial record is
retained, i.e. not yielded. -/
def splitNl (cs : List Char) : List (List Char) := splitNlAux cs []

/-- Parse of a non-empty all-digit character run as a natural number. -/
def parseNatChars (cs : List Char) : Option ℕ :=
  if cs ≠ [] ∧ cs.all Char.isDigit then some (digitsVal cs) else none

/-- Parse of an optionally negated digit run as an integer. -/
def parseIntChars (cs : List Char) : Option ℤ :=
  if cs.head? = some '-' then (parseNatChars cs.tail).map (fun n => -(n : ℤ))
  else (parseNatChars cs).map (fun n => (n : ℤ))

/-- Parse of the serialized rational format of `qReprChars`. -/
def parseQChars (cs : List Char) : Option ℚ :=
  let np := cs.takeWhile (fun c => c ≠ '/')
  match cs.dropWhile (fun c => c ≠ '/') with
  | [] => (parseIntChars np).map (fun i => (i : ℚ))
  | _ :: dp =>
    match parseIntChars np, parseNatChars dp with
    | some i, some d => if d ≠ 0 then some ((i : ℚ) / (d : ℚ)) else none
    | _, _ => none

/-- Parse of one serialized JSON numeric value (`null` becomes NaN). -/
def parseJsonNumChars (cs : List Char) : Option JSNum :=
  if cs = ['n', 'u', 'l', 'l'] then some none else (parseQChars cs).map some

/-- Strip an expected literal prefix. -/
def expectPrefix (pat cs : List Char) : Option (List Char) :=
  if pat.isPrefixOf cs then some (cs.drop pat.length) else none

/-- Decode one `"name":value` fragment followed by the separator `sep`. -/
def decodeField (name : String) (sep : Char) (cs : List Char) :
    Option (JSNum × List Char) := do
  let cs ← expectPrefix ('"' :: name.data ++ ['"', ':']) cs
  let v := cs.takeWhile (fun c => c ≠ ',' ∧ c ≠ '\x7d')
  let rest := cs.dropWhile (fun c => c ≠ ',' ∧ c ≠ '\x7d')
  let x ← parseJsonNumChars v
  match rest with
  | c :: rest2 => if c = sep then some (x, rest2) else none
  | [] => none

/-- Modelled from the spec: the consumer's decode of one complete record
(`json.loads` inside `monitor.py`'s `process_data`, absent from the source
tree), specialized to the producer's record layout; any malformed record
yields `none` and is dropped. -/
def decodeRecord (cs : List Char) : Option SamplePoint := do
  let cs ← expectPrefix ['\x7b'] cs
  let (g, cs) ← decodeField "gpu" ',' cs
  let (m, cs) ← decodeField "mem" ',' cs
  let (t, cs) ← decodeField "temp" ',' cs
  let (f, cs) ← decodeField "fan" '\x7d' cs
  if cs = [] then some ⟨g, m, t, f⟩ else none

/-- Concatenated bytes of everything the producer wrote to the pipe. -/
def streamBytes (sent : List (List Char)) : List Char := sent.flatten

/-- Modelled from the spec: the consumer's reconstructed history — every
complete delimited record decoded in arrival order, malformed records
dropped. -/
def consumerHistory (cs : List Char) : List SamplePoint :=
  (splitNl cs).filterMap decodeRecord

/-- Modelled from the spec: the vertical mapping `get_y` inside
`monitor.py`'s `calculate_coords` —
`margin_top + graph_h * (1 - val / max_val)`. -/
def get_y (margin_top graph_h maxVal v : ℚ) : ℚ :=
  margin_top + graph_h * (1 - v / maxVal)

/-- Modelled from the spec: `calculate_coords` of `scripts/monitor.py`
(absent from the source tree; its shape is quoted in the repository's
technical documentation), per plotted series: the newest sample is anchored
at `x = width - margin_right`, each `i`-th older sample steps left by
`i * step_x` with `step_x = graph_w / (max_history - 1)`, and values map
through `get_y`.  `pointsToDraw` is the caller-supplied number of points to
plot (at most the history length, at most the on-screen window). -/
def calculate_coords (width margin_right margin_top graph_w graph_h : ℚ)
    (maxHistory : ℕ) (maxVal : ℚ) (history : List ℚ) (pointsToDraw : ℕ) :
    List (ℚ × ℚ) :=
  (List.range pointsToDraw).map (fun i =>
    let stepX := graph_w / ((maxHistory : ℚ) - 1)
    let j : ℕ := history.length - 1 - i
    ((width - margin_right) - (i : ℚ) * stepX,
     get_y margin_top graph_h maxVal (history.getD j 0)))

/-- Modelled from the spec: `setup_window_position` of `scripts/monitor.py`
(absent from the source tree; its shape is quoted in the repository's
technical documentation).  Orientation 0 is a top panel (window just below
the anchor), any other orientation a bottom panel (window just above); the
candidate is centered horizontally on the anchor and both axes are then
clamped independently via `max(0, min(target, screen - win))`. -/
def setup_window_position (orientation : ℕ)
    (x_applet y_applet w_applet h_applet screen_w screen_h win_w win_h : ℚ) :
    ℚ × ℚ :=
  let target_x := x_applet + w_applet / 2 - win_w / 2
  let target_y := if orientation = 0 then y_applet + h_applet + 5
                  else y_applet - win_h - 5
  (max 0 (min target_x (screen_w - win_w)),
   max 0 (min target_y (screen_h - win_h)))

/-! Helper lemmas about the producer state machine. -/

theorem sendToMonitor_history (w : Bool) (d : SamplePoint) (s : AppletState) :
    (sendToMonitor w d s).history = s.history := by
  unfold sendToMonitor
  split
  · rfl
  · split <;> rfl

theorem sendToMonitor_live_ok (d : SamplePoint) (s : AppletState)
    (hp : s.monitorProc = true) (hs : s.monitorStdin = true) :
    sendToMonitor true d s = { s with sent := s.sent ++ [sendRecord d] } := by
  simp [sendToMonitor, hp, hs]

theorem sendToMonitor_dead (w : Bool) (d : SamplePoint) (s : AppletState)
    (h : s.monitorProc = false ∨ s.monitorStdin = false) :
    sendToMonitor w d s = s := by
  unfold sendToMonitor
  rcases h with h | h <;> simp [h]

theorem parseAndDisplay_history (w : Bool) (out : String) (s : AppletState)
    (r : ParsedLine) (hr : parseLine out = some r) :
    (parseAndDisplay w out s).history = s.history ++ [pointOf r] := by
  unfold parseAndDisplay
  rw [hr, sendToMonitor_history]

theorem ticks_history_length (w : Bool) (out : String)
    (hp : (parseLine out).isSome = true) (n : ℕ) (s : AppletState) :
    (ticks w out n s).history.length = s.history.length + n := by
  induction n generalizing s with
  | zero => rfl
  | succ n ih =>
    obtain ⟨r, hr⟩ := Option.isSome_iff_exists.mp hp
    rw [ticks, ih, parseAndDisplay_history w out s r hr]
    simp
    omega

theorem parseLine_memUsedPercent (out : String) (r : ParsedLine)
    (hr : parseLine out = some r) :
    r.memUsedPercent = if jsGt r.memTotal 0 then jsDiv r.memUsed r.memTotal else some 0 := by
  unfold parseLine at hr
  split at hr
  · injection hr with h
    subst h
    rfl
  · exact absurd hr (by simp)

theorem parseLineLegacy_memUsedPercent (out : String) (r : ParsedLineLegacy)
    (hr : parseLineLegacy out = some r) :
    r.memUsedPercent = if jsGt r.memTotal 0 then jsDiv r.memUsed r.memTotal else some 0 := by
  unfold parseLineLegacy at hr
  split at hr
  · injection hr with h
    subst h
    rfl
  · exact absurd hr (by simp)

/-! Claim theorems. -/

/-- C4: if a Connection is already live (`_monitorProc` set), a further
`_openMonitor()` call is a no-op: it spawns no second process and leaves the
entire producer state unchanged, whatever the environment would have done
with the spawn or the replay writes. -/
theorem openMonitor_noop_when_live (s : AppletState) (spawnOk : Bool)
    (wok : ℕ → Bool) (h : s.monitorProc = true) :
    openMonitor spawnOk wok s = s := by
  simp [openMonitor, h]

/-- Witness for C4 at a concrete live state. -/
theorem openMonitor_noop_when_live_witness :
    (⟨[], true, true, []⟩ : AppletState).monitorProc = true ∧
    openMonitor false (fun _ => false) ⟨[], true, true, []⟩
      = (⟨[], true, true, []⟩ : AppletState) :=
  ⟨rfl, openMonitor_noop_when_live ⟨[], true, true, []⟩ false (fun _ => false) rfl⟩

/-- C5: when a live Connection's write or flush fails (broken pipe), the
producer tears the Connection down at once — both handles nulled — and
swallows the error (nothing else of the pipeline state changes, and
`sendToMonitor` is a total function, so no exception reaches the caller);
a subsequent sampling tick still appends its sample to `history` exactly as
before. -/
theorem publish_failure_teardown (s : AppletState) (d : SamplePoint)
    (out : String) (r : ParsedLine)
    (hp : s.monitorProc = true) (hs : s.monitorStdin = true)
    (hr : parseLine out = some r) :
    (sendToMonitor false d s).monitorProc = false ∧
    (sendToMonitor false d s).monitorStdin = false ∧
    (sendToMonitor false d s).history = s.history ∧
    (sendToMonitor false d s).sent = s.sent ∧
    (parseAndDisplay true out (sendToMonitor false d s)).history
      = s.history ++ [pointOf r] := by
  have he : sendToMonitor false d s
      = { s with monitorProc := false, monitorStdin := false } := by
    simp [sendToMonitor, hp, hs]
  refine ⟨by rw [he], by rw [he], by rw [he], by rw [he], ?_⟩
  rw [parseAndDisplay_history true out _ r hr, he]

/-- Witness for C5 at a concrete live state and sampler line. -/
theorem publish_failure_teardown_witness :
    ((⟨[], true, true, []⟩ : AppletState).monitorProc = true ∧
     (⟨[], true, true, []⟩ : AppletState).monitorStdin = true ∧
     parseLine "45, 2048, 8192, 30, 55, t"
       = some ⟨"45".data, some 45, some 2048, some 8192, some 30, some 55,
               "t".data, some (1 / 4)⟩) ∧
    ((sendToMonitor false ⟨some 1, some 2, some 3, some 4⟩
        ⟨[], true, true, []⟩).monitorProc = false ∧
     (sendToMonitor false ⟨some 1, some 2, some 3, some 4⟩
        ⟨[], true, true, []⟩).monitorStdin = false ∧
     (sendToMonitor false ⟨some 1, some 2, some 3, some 4⟩
        ⟨[], true, true, []⟩).history = [] ∧
     (sendToMonitor false ⟨some 1, some 2, some 3, some 4⟩
        ⟨[], true, true, []⟩).sent = [] ∧
     (parseAndDisplay true "45, 2048, 8192, 30, 55, t"
        (sendToMonitor false ⟨some 1, some 2, some 3, some 4⟩
          ⟨[], true, true, []⟩)).history
       = [] ++ [pointOf ⟨"45".data, some 45, some 2048, some 8192, some 30,
                          some 55, "t".data, some (1 / 4)⟩]) :=
  ⟨⟨rfl, rfl, by
     simp [parseLine, splitFields, trimChars, splitOnChar, splitOnCharAux,
       underscoreSpaces, parseFloat, digitsVal, jsGt, jsDiv]
     norm_num⟩,
   publish_failure_teardown ⟨[], true, true, []⟩ ⟨some 1, some 2, some 3, some 4⟩
     "45, 2048, 8192, 30, 55, t"
     ⟨"45".data, some 45, some 2048, some 8192, some 30, some 55, "t".data,
      some (1 / 4)⟩
     rfl rfl (by
       simp [parseLine, splitFields, trimChars, splitOnChar, splitOnCharAux,
         underscoreSpaces, parseFloat, digitsVal, jsGt, jsDiv]
       norm_num)⟩

/-- C9: the two Connection handles are cleared together on every failure
path — after a failed `_sendToMonitor` write on a live Connection and after
the exit watcher fires, both `_monitorProc` and `_monitorStdin` are null —
and any `_sendToMonitor` call with either handle null is a no-op that
writes nothing and mutates no state. -/
theorem handles_cleared_together :
    (∀ (s : AppletState) (d : SamplePoint),
      s.monitorProc = true → s.monitorStdin = true →
      (sendToMonitor false d s).monitorProc = false ∧
      (sendToMonitor false d s).monitorStdin = false) ∧
    (∀ s : AppletState,
      (exitWatcher s).monitorProc = false ∧ (exitWatcher s).monitorStdin = false) ∧
    (∀ (s : AppletState) (d : SamplePoint) (w : Bool),
      s.monitorProc = false ∨ s.monitorStdin = false →
      sendToMonitor w d s = s) := by
  refine ⟨fun s d hp hs => ?_, fun s => ⟨rfl, rfl⟩, fun s d w h => sendToMonitor_dead w d s h⟩
  have he : sendToMonitor false d s
      = { s with monitorProc := false, monitorStdin := false } := by
    simp [sendToMonitor, hp, hs]
  exact ⟨by rw [he], by rw [he]⟩

/-- Witness for C9 at concrete states. -/
theorem handles_cleared_together_witness :
    ((sendToMonitor false ⟨some 1, some 2, some 3, some 4⟩
        ⟨[], true, true, []⟩).monitorProc = false ∧
     (sendToMonitor false ⟨some 1, some 2, some 3, some 4⟩
        ⟨[], true, true, []⟩).monitorStdin = false) ∧
    ((exitWatcher ⟨[], true, true, []⟩).monitorProc = false ∧
     (exitWatcher ⟨[], true, true, []⟩).monitorStdin = false) ∧
    sendToMonitor true ⟨some 1, some 2, some 3, some 4⟩ ⟨[], false, false, []⟩
      = (⟨[], false, false, []⟩ : AppletState) :=
  ⟨handles_cleared_together.1 ⟨[], true, true, []⟩ ⟨some 1, some 2, some 3, some 4⟩ rfl rfl,
   handles_cleared_together.2.1 ⟨[], true, true, []⟩,
   handles_cleared_together.2.2 ⟨[], false, false, []⟩ ⟨some 1, some 2, some 3, some 4⟩
     true (Or.inl rfl)⟩

/-- C10: `parse_and_display` never divides by a non-positive memory total:
whenever the decoded `memTotal` does not satisfy the JS guard
`memTotal > 0` (zero, negative, or NaN totals all fail it), the computed
`_memUsedPercent` is `0` rather than `memUsed / memTotal`, so `0` is also
what reaches the streamed sample's `mem` field; the same guard governs the
legacy `applet.js` parser. -/
theorem memTotal_guard (out : String) (r : ParsedLine)
    (outl : String) (rl : ParsedLineLegacy)
    (hr : parseLine out = some r) (hng : jsGt r.memTotal 0 = false)
    (hrl : parseLineLegacy outl = some rl) (hngl : jsGt rl.memTotal 0 = false) :
    r.memUsedPercent = some 0 ∧ (pointOf r).mem = some 0 ∧
    rl.memUsedPercent = some 0 := by
  have h1 : r.memUsedPercent = some 0 := by
    rw [parseLine_memUsedPercent out r hr, if_neg]
    simp [hng]
  refine ⟨h1, ?_, ?_⟩
  · simp [pointOf, jsMul, h1]
  · rw [parseLineLegacy_memUsedPercent outl rl hrl, if_neg]
    simp [hngl]

/-- Witness for C10: a zero total for the current parser and a NaN total
(`[N/A]`) for the legacy parser. -/
theorem memTotal_guard_witness :
    (parseLine "45, 2048, 0, 30, 55, t"
       = some ⟨"45".data, some 45, some 2048, some 0, some 30, some 55,
               "t".data, some 0⟩ ∧
     jsGt (some (0 : ℚ)) 0 = false ∧
     parseLineLegacy "45, 2048, [N/A], 30, 55"
       = some ⟨"45".data, some 2048, none, some 30, some 55, some 0⟩ ∧
     jsGt (none : JSNum) 0 = false) ∧
    ((⟨"45".data, some 45, some 2048, some 0, some 30, some 55, "t".data,
        some 0⟩ : ParsedLine).memUsedPercent = some 0 ∧
     (pointOf ⟨"45".data, some 45, some 2048, some 0, some 30, some 55,
        "t".data, some 0⟩).mem = some 0 ∧
     (⟨"45".data, some 2048, none, some 30, some 55, some 0⟩ :
        ParsedLineLegacy).memUsedPercent = some 0) :=
  ⟨⟨by
     simp [parseLine, splitFields, trimChars, splitOnChar, splitOnCharAux,
       underscoreSpaces, parseFloat, digitsVal, jsGt, jsDiv],
    by simp [jsGt],
    by
     simp [parseLineLegacy, splitFields, trimChars, splitOnChar, splitOnCharAux,
       parseFloat, digitsVal, jsGt, jsDiv],
    rfl⟩,
   memTotal_guard "45, 2048, 0, 30, 55, t" _ "45, 2048, [N/A], 30, 55" _
     (by
       simp [parseLine, splitFields, trimChars, splitOnChar, splitOnCharAux,
         underscoreSpaces, parseFloat, digitsVal, jsGt, jsDiv])
     (by simp [jsGt])
     (by
       simp [parseLineLegacy, splitFields, trimChars, splitOnChar, splitOnCharAux,
         parseFloat, digitsVal, jsGt, jsDiv])
     rfl⟩

/-- C2 (the code violates the claimed invariant): the applet declares
`max_history_points = 43200` but `parse_and_display` pushes onto `history`
with no eviction anywhere, so after `capacity + 1` successful sampling
ticks the buffer holds `capacity + 1` samples — its length exceeds the
declared capacity instead of staying bounded by it. -/
theorem history_exceeds_capacity :
    (ticks true "45, 2048, 8192, 30, 55, t" (max_history_points + 1)
        ⟨[], false, false, []⟩).history.length
      = max_history_points + 1 := by
  rw [ticks_history_length true _ ?_ (max_history_points + 1)
    ⟨[], false, false, []⟩]
  · rfl
  · simp [parseLine, splitFields, trimChars, splitOnChar, splitOnCharAux,
      underscoreSpaces, parseFloat, digitsVal, jsGt, jsDiv]

/-- C7 (counterexample): with a 100×100 screen and a 200-wide window, the
resolver returns `x = 0`, and `x + windowWidth = 200 > 100 = screenWidth` —
the claim's clamp guarantee fails when the window is larger than the
screen. -/
theorem placement_offscreen :
    ¬((setup_window_position 0 0 0 10 10 100 100 200 50).1 + 200 ≤ 100) := by
  norm_num [setup_window_position, max_def, min_def]

/-- C7 (amended): whenever the window fits on the screen on each axis
(`windowSize ≤ screenBound`), the resolver's result is clamped
independently on both axes into `[0, screenBound − windowSize]`: the
returned `x` satisfies `0 ≤ x` and `x + windowWidth ≤ screenWidth`, and
likewise for `y`, for every anchor rectangle and preferred side — even
when the anchor lies at or beyond a screen edge. -/
theorem placement_clamped (o : ℕ) (xa ya wa ha sw sh ww wh : ℚ)
    (hw : ww ≤ sw) (hh : wh ≤ sh) :
    0 ≤ (setup_window_position o xa ya wa ha sw sh ww wh).1 ∧
    (setup_window_position o xa ya wa ha sw sh ww wh).1 + ww ≤ sw ∧
    0 ≤ (setup_window_position o xa ya wa ha sw sh ww wh).2 ∧
    (setup_window_position o xa ya wa ha sw sh ww wh).2 + wh ≤ sh := by
  unfold setup_window_position
  dsimp only
  refine ⟨le_max_left 0 _, ?_, le_max_left 0 _, ?_⟩
  · have h : max 0 (min (xa + wa / 2 - ww / 2) (sw - ww)) ≤ sw - ww :=
      max_le (by linarith) (min_le_right _ _)
    linarith
  · have h : max 0 (min (if o = 0 then ya + ha + 5 else ya - wh - 5) (sh - wh))
        ≤ sh - wh :=
      max_le (by linarith) (min_le_right _ _)
    linarith

/-- Witness for C7's amended clamping at a concrete anchor beyond the right
screen edge. -/
theorem placement_clamped_witness :
    ((50 : ℚ) ≤ 100 ∧ (40 : ℚ) ≤ 100) ∧
    (0 ≤ (setup_window_position 0 120 0 10 10 100 100 50 40).1 ∧
     (setup_window_position 0 120 0 10 10 100 100 50 40).1 + 50 ≤ 100 ∧
     0 ≤ (setup_window_position 0 120 0 10 10 100 100 50 40).2 ∧
     (setup_window_position 0 120 0 10 10 100 100 50 40).2 + 40 ≤ 100) :=
  ⟨⟨by norm_num, by norm_num⟩,
   placement_clamped 0 120 0 10 10 100 100 50 40 (by norm_num) (by norm_num)⟩

/-! Character classes of the serialized records. -/

theorem digitChar_isDigit {d : ℕ} (h : d < 10) : (digitChar d).isDigit = true := by
  interval_cases d <;> decide

theorem mem_natReprChars_isDigit {c : Char} {n : ℕ} (h : c ∈ natReprChars n) :
    c.isDigit = true := by
  unfold natReprChars at h
  split at h
  · simp at h
    subst h
    decide
  · obtain ⟨d, hd, hc⟩ := List.mem_map.mp h
    subst hc
    exact digitChar_isDigit (Nat.digits_lt_base (by norm_num) (List.mem_reverse.mp hd))

theorem mem_intReprChars {c : Char} {i : ℤ} (h : c ∈ intReprChars i) :
    c.isDigit = true ∨ c = '-' := by
  match i with
  | Int.ofNat n => exact Or.inl (mem_natReprChars_isDigit h)
  | Int.negSucc n =>
    simp only [intReprChars, List.mem_cons] at h
    rcases h with h | h
    · exact Or.inr h
    · exact Or.inl (mem_natReprChars_isDigit h)

theorem mem_qReprChars {c : Char} {q : ℚ} (h : c ∈ qReprChars q) :
    c.isDigit = true ∨ c = '-' ∨ c = '/' := by
  unfold qReprChars at h
  split at h
  · rcases mem_intReprChars h with h | h
    · exact Or.inl h
    · exact Or.inr (Or.inl h)
  · rw [List.mem_append] at h
    rcases h with h | h
    · rcases mem_intReprChars h with h | h
      · exact Or.inl h
      · exact Or.inr (Or.inl h)
    · rcases List.mem_cons.mp h with h | h
      · exact Or.inr (Or.inr h)
      · exact Or.inl (mem_natReprChars_isDigit h)

theorem mem_jsonNumChars {c : Char} {x : JSNum} (h : c ∈ jsonNumChars x) :
    c.isDigit = true ∨ c = '-' ∨ c = '/' ∨ c = 'n' ∨ c = 'u' ∨ c = 'l' := by
  match x with
  | none =>
    simp only [jsonNumChars, List.mem_cons, List.not_mem_nil, or_false] at h
    rcases h with h | h | h | h <;> subst h <;> simp
  | some q =>
    rcases mem_qReprChars (q := q) h with h | h | h
    · exact Or.inl h
    · exact Or.inr (Or.inl h)
    · exact Or.inr (Or.inr (Or.inl h))

/-- No serialized numeric value contains a record delimiter, a field
separator, a closing brace or a quote. -/
theorem jsonNumChars_value_char {c : Char} {x : JSNum} (h : c ∈ jsonNumChars x) :
    c ≠ '\n' ∧ c ≠ ',' ∧ c ≠ '\x7d' ∧ c ≠ '"' := by
  rcases mem_jsonNumChars h with hd | h | h | h | h | h
  · refine ⟨?_, ?_, ?_, ?_⟩ <;> (intro he; subst he; simp at hd)
  all_goals (subst h; exact ⟨by decide, by decide, by decide, by decide⟩)

/-- Characters of one serialized field fragment. -/
theorem mem_fieldChars {c : Char} {f : String × JSNum} (h : c ∈ fieldChars f) :
    c = '"' ∨ c ∈ f.1.data ∨ c = ':' ∨ c ∈ jsonNumChars f.2 := by
  simp only [fieldChars, List.mem_append, List.mem_cons] at h
  tauto

/-- Characters of a comma-join come from the fragments or are commas. -/
theorem mem_joinComma {c : Char} : ∀ {ls : List (List Char)},
    c ∈ joinComma ls → c = ',' ∨ ∃ l ∈ ls, c ∈ l := by
  intro ls
  induction ls with
  | nil => intro h; simp [joinComma] at h
  | cons x xs ih =>
    match xs with
    | [] =>
      intro h
      simp only [joinComma] at h
      exact Or.inr ⟨x, by simp, h⟩
    | y :: ys =>
      intro h
      simp only [joinComma, List.mem_append, List.mem_cons] at h
      rcases h with h | h | h
      · exact Or.inr ⟨x, by simp, h⟩
      · exact Or.inl h
      · rcases ih h with h | ⟨l, hl, hc⟩
        · exact Or.inl h
        · exact Or.inr ⟨l, by simp [hl], hc⟩

/-- No character of a serialized record is a newline: the only newline
`_sendToMonitor` writes is the single record terminator. -/
theorem encodeRecord_no_newline (s : SamplePoint) :
    ∀ c ∈ encodeRecord s, c ≠ '\n' := by
  intro c hc
  simp only [encodeRecord, List.mem_cons, List.mem_append, List.not_mem_nil,
    or_false] at hc
  rcases hc with (h | h) | h
  · subst h; decide
  · rcases mem_joinComma h with h | ⟨l, hl, hcl⟩
    · subst h; decide
    · simp only [encodeFields, List.map_cons, List.map_nil, List.mem_cons,
        List.not_mem_nil, or_false] at hl
      rcases hl with h | h | h | h <;> subst h <;>
        rcases mem_fieldChars hcl with h | h | h | h
      all_goals first
        | (subst h; decide)
        | (exact (jsonNumChars_value_char h).1)
        | (fin_cases h <;> decide)
  · subst h; decide

/-! Generic list splitting lemmas. -/

theorem takeWhile_append_stop {α} (p : α → Bool) (l1 : List α) (x : α)
    (l2 : List α) (h1 : ∀ a ∈ l1, p a = true) (h2 : p x = false) :
    (l1 ++ x :: l2).takeWhile p = l1 := by
  induction l1 with
  | nil => simp [List.takeWhile_cons, h2]
  | cons a l ih =>
    have ha := h1 a (by simp)
    simp [List.takeWhile_cons, ha, ih (fun b hb => h1 b (by simp [hb]))]

theorem dropWhile_append_stop {α} (p : α → Bool) (l1 : List α) (x : α)
    (l2 : List α) (h1 : ∀ a ∈ l1, p a = true) (h2 : p x = false) :
    (l1 ++ x :: l2).dropWhile p = x :: l2 := by
  induction l1 with
  | nil => simp [List.dropWhile_cons, h2]
  | cons a l ih =>
    have ha := h1 a (by simp)
    simp [List.dropWhile_cons, ha, ih (fun b hb => h1 b (by simp [hb]))]

/-- C6: the Render Coordinate Mapper is a pure function (so two calls on
identical inputs agree — last conjunct) and satisfies the mapping policy:
the `i`-th plotted point (the `i`-th newest sample) has
`x = (width − margin_right) − i · stepX` with
`stepX = graph_w / (maxHistoryWindow − 1)` — in particular the newest
sample sits at `x = width − margin_right` — and every value `v` maps to
`y = margin_top + graph_h · (1 − v / maxValue)`, so `v = 0` lands on the
plot bottom `margin_top + graph_h` and `v = maxValue` on the top
`margin_top`. -/
theorem coords_mapping (width margin_right margin_top graph_w graph_h : ℚ)
    (maxHistory : ℕ) (maxVal : ℚ) (history : List ℚ) (pointsToDraw i : ℕ)
    (hi : i < pointsToDraw) (hmv : maxVal ≠ 0) :
    (calculate_coords width margin_right margin_top graph_w graph_h maxHistory
        maxVal history pointsToDraw)[i]?
      = some ((width - margin_right) - (i : ℚ) * (graph_w / ((maxHistory : ℚ) - 1)),
          get_y margin_top graph_h maxVal (history.getD (history.length - 1 - i) 0)) ∧
    (0 < pointsToDraw →
      ((calculate_coords width margin_right margin_top graph_w graph_h maxHistory
          maxVal history pointsToDraw)[0]?).map Prod.fst
        = some (width - margin_right)) ∧
    get_y margin_top graph_h maxVal 0 = margin_top + graph_h ∧
    get_y margin_top graph_h maxVal maxVal = margin_top ∧
    calculate_coords width margin_right margin_top graph_w graph_h maxHistory
        maxVal history pointsToDraw
      = calculate_coords width margin_right margin_top graph_w graph_h maxHistory
          maxVal history pointsToDraw := by
  refine ⟨?_, ?_, ?_, ?_, rfl⟩
  · simp [calculate_coords, List.getElem?_map, List.getElem?_range, hi]
  · intro hpos
    simp [calculate_coords, List.getElem?_map, List.getElem?_range, hpos]
  · simp [get_y]
  · simp [get_y, div_self hmv]

/-- Witness for C6 at a concrete plot geometry and history. -/
theorem coords_mapping_witness :
    ((1 : ℕ) < 3 ∧ (100 : ℚ) ≠ 0) ∧
    ((calculate_coords 300 10 5 280 100 60 100 [0, 50, 100] 3)[1]?
       = some ((300 - 10) - (1 : ℚ) * (280 / ((60 : ℚ) - 1)),
           get_y 5 100 100 ([0, 50, 100].getD ([0, 50, 100].length - 1 - 1) 0)) ∧
     ((calculate_coords 300 10 5 280 100 60 100 [0, 50, 100] 3)[0]?).map Prod.fst
       = some (300 - 10) ∧
     get_y 5 100 100 0 = 5 + 100 ∧
     get_y 5 100 100 100 = 5 ∧
     calculate_coords 300 10 5 280 100 60 100 [0, 50, 100] 3
       = calculate_coords 300 10 5 280 100 60 100 [0, 50, 100] 3) :=
  ⟨⟨by norm_num, by norm_num⟩,
   (coords_mapping 300 10 5 280 100 60 100 [0, 50, 100] 3 1
      (by norm_num) (by norm_num)).1,
   (coords_mapping 300 10 5 280 100 60 100 [0, 50, 100] 3 1
      (by norm_num) (by norm_num)).2.1 (by norm_num),
   (coords_mapping 300 10 5 280 100 60 100 [0, 50, 100] 3 1
      (by norm_num) (by norm_num)).2.2.1,
   (coords_mapping 300 10 5 280 100 60 100 [0, 50, 100] 3 1
      (by norm_num) (by norm_num)).2.2.2.1,
   (coords_mapping 300 10 5 280 100 60 100 [0, 50, 100] 3 1
      (by norm_num) (by norm_num)).2.2.2.2⟩

/-- C1 (counterexample): the sampler line `45, 2048, 8192, 150, 55, t`
decodes and is published over a live Connection, but the one record written
is the serialization of `{gpu: 150, mem: 25, temp: 45, fan: 55}`: its field
list has no `ts` entry, and its `gpu` value `150` lies outside `0–100` —
both against the claim's record description. -/
theorem stream_record_missing_ts :
    (parseAndDisplay true "45, 2048, 8192, 150, 55, t"
        ⟨[], true, true, []⟩).sent
      = [sendRecord ⟨some 150, some 25, some 45, some 55⟩] ∧
    "ts" ∉ (encodeFields ⟨some 150, some 25, some 45, some 55⟩).map Prod.fst ∧
    ¬((150 : ℚ) ≤ 100) := by
  have hp : parseLine "45, 2048, 8192, 150, 55, t"
      = some ⟨"45".data, some 45, some 2048, some 8192, some 150, some 55,
              "t".data, some (1 / 4)⟩ := by
    simp [parseLine, splitFields, trimChars, splitOnChar, splitOnCharAux,
      underscoreSpaces, parseFloat, digitsVal, jsGt, jsDiv]
    norm_num
  refine ⟨?_, by decide, by norm_num⟩
  simp only [parseAndDisplay, hp, pointOf, jsMul, Option.map_some, sendToMonitor]
  norm_num

/-- C1 (amended): for every sample published while the Connection is live
and the pipe write succeeds, the producer writes exactly one
newline-terminated JSON record — the serialization of exactly the four
fields `gpu`, `mem`, `temp`, `fan` carrying the sample's numeric values
unclamped (there is no `ts` field in the streamed record) — and the record
body contains no embedded newline. -/
theorem publish_record_shape (s : AppletState) (d : SamplePoint)
    (hp : s.monitorProc = true) (hs : s.monitorStdin = true) :
    (sendToMonitor true d s).sent = s.sent ++ [sendRecord d] ∧
    sendRecord d = encodeRecord d ++ ['\n'] ∧
    (∀ c ∈ encodeRecord d, c ≠ '\n') ∧
    (encodeFields d).map Prod.fst = ["gpu", "mem", "temp", "fan"] ∧
    (encodeFields d).map Prod.snd = [d.gpu, d.mem, d.temp, d.fan] := by
  refine ⟨?_, rfl, encodeRecord_no_newline d, rfl, rfl⟩
  rw [sendToMonitor_live_ok d s hp hs]

/-- Witness for C1's amended record shape at a concrete live state and
sample. -/
theorem publish_record_shape_witness :
    ((⟨[], true, true, []⟩ : AppletState).monitorProc = true ∧
     (⟨[], true, true, []⟩ : AppletState).monitorStdin = true) ∧
    ((sendToMonitor true ⟨some 30, some 25, some 45, some 55⟩
        ⟨[], true, true, []⟩).sent
       = [] ++ [sendRecord ⟨some 30, some 25, some 45, some 55⟩] ∧
     sendRecord ⟨some 30, some 25, some 45, some 55⟩
       = encodeRecord ⟨some 30, some 25, some 45, some 55⟩ ++ ['\n'] ∧
     (∀ c ∈ encodeRecord ⟨some 30, some 25, some 45, some 55⟩, c ≠ '\n') ∧
     (encodeFields ⟨some 30, some 25, some 45, some 55⟩).map Prod.fst
       = ["gpu", "mem", "temp", "fan"] ∧
     (encodeFields ⟨some 30, some 25, some 45, some 55⟩).map Prod.snd
       = [some 30, some 25, some 45, some 55]) :=
  ⟨⟨rfl, rfl⟩,
   publish_record_shape ⟨[], true, true, []⟩ ⟨some 30, some 25, some 45, some 55⟩
     rfl rfl⟩

/-- C8 (counterexample): the current producer's decode requires at least 6
comma-separated fields, so the 5-field line `45, 2048, 8192, 30, 55`
(without a timestamp) is rejected — `parse_and_display` returns before
decoding anything. -/
theorem five_field_line_rejected :
    parseLine "45, 2048, 8192, 30, 55" = none := by
  simp [parseLine, splitFields, trimChars, splitOnChar, splitOnCharAux]

/-- C8 (amended): the current producer's decode accepts only the 6-field
form with a timestamp — on `45, 2048, 8192, 30, 55, t` it decodes temp 45,
memUsed 2048, memTotal 8192, util 30, fan 55 and computes
`memUsedPercent = 0.25` — while the 5-field form without a timestamp is
accepted (with the same values, and tolerating whitespace around fields)
only by the legacy `applet.js` decode. -/
theorem line_decoding_by_arity :
    parseLine "45, 2048, 8192, 30, 55, t"
      = some ⟨"45".data, some 45, some 2048, some 8192, some 30, some 55,
              "t".data, some (1 / 4)⟩ ∧
    parseLineLegacy "45, 2048, 8192, 30, 55"
      = some ⟨"45".data, some 2048, some 8192, some 30, some 55, some (1 / 4)⟩ ∧
    parseLineLegacy "  45 ,  2048 ,8192 ,   30,55  "
      = some ⟨"45".data, some 2048, some 8192, some 30, some 55, some (1 / 4)⟩ := by
  refine ⟨?_, ?_, ?_⟩
  · simp [parseLine, splitFields, trimChars, splitOnChar, splitOnCharAux,
      underscoreSpaces, parseFloat, digitsVal, jsGt, jsDiv]
    norm_num
  · simp [parseLineLegacy, splitFields, trimChars, splitOnChar,
      splitOnCharAux, parseFloat, digitsVal, jsGt, jsDiv]
    norm_num
  · simp [parseLineLegacy, splitFields, trimChars, splitOnChar,
      splitOnCharAux, parseFloat, digitsVal, jsGt, jsDiv]
    norm_num

/-! Round trip of the serialized numeric formats through the
spec-modelled consumer decoder. -/

theorem digitChar_toNat {d : ℕ} (h : d < 10) : (digitChar d).toNat = 48 + d := by
  interval_cases d <;> decide

theorem digitsVal_reverse_map (l : List ℕ) (h : ∀ d ∈ l, d < 10) :
    digitsVal (l.reverse.map digitChar) = Nat.ofDigits 10 l := by
  induction l with
  | nil => rfl
  | cons d ds ih =>
    have hd := h d (by simp)
    rw [Nat.ofDigits_cons, ← ih (fun x hx => h x (by simp [hx]))]
    simp only [List.reverse_cons, List.map_append, List.map_cons, List.map_nil]
    unfold digitsVal
    rw [List.foldl_append]
    simp only [List.foldl_cons, List.foldl_nil, digitChar_toNat hd]
    omega

theorem parseNatChars_natReprChars (n : ℕ) : parseNatChars (natReprChars n) = some n := by
  by_cases h0 : n = 0
  · subst h0
    decide
  · have hne : natReprChars n ≠ [] := by
      unfold natReprChars
      rw [if_neg h0]
      simp [Nat.digits_ne_nil_iff_ne_zero.mpr h0]
    have hall : (natReprChars n).all Char.isDigit = true := by
      rw [List.all_eq_true]
      intro c hc
      exact mem_natReprChars_isDigit hc
    unfold parseNatChars
    rw [if_pos ⟨hne, hall⟩]
    congr 1
    unfold natReprChars
    rw [if_neg h0,
      digitsVal_reverse_map _ (fun d hd => Nat.digits_lt_base (by norm_num) hd)]
    exact Nat.ofDigits_digits 10 n

theorem parseIntChars_intReprChars (i : ℤ) : parseIntChars (intReprChars i) = some i := by
  match i with
  | Int.ofNat n =>
    have hh : (natReprChars n).head? ≠ some '-' := by
      cases hn : natReprChars n with
      | nil => simp
      | cons c rest =>
        have hc : c.isDigit = true := mem_natReprChars_isDigit (by rw [hn]; simp)
        simp only [List.head?_cons, ne_eq, Option.some.injEq]
        intro he
        subst he
        exact absurd hc (by decide)
    show parseIntChars (natReprChars n) = some (Int.ofNat n)
    unfold parseIntChars
    rw [if_neg hh, parseNatChars_natReprChars]
    rfl
  | Int.negSucc n =>
    show parseIntChars ('-' :: natReprChars (n + 1)) = some (Int.negSucc n)
    unfold parseIntChars
    simp only [List.head?_cons, if_pos, List.tail_cons, parseNatChars_natReprChars,
      Option.map_some]
    rw [Int.negSucc_eq]
    norm_num

theorem intReprChars_no_slash {i : ℤ} : ∀ c ∈ intReprChars i, c ≠ '/' := by
  intro c hc
  rcases mem_intReprChars hc with h | h
  · intro he
    subst he
    exact absurd h (by decide)
  · subst h
    decide

theorem num_cast_eq_self {q : ℚ} (hden : q.den = 1) : ((q.num : ℚ) : ℚ) = q := by
  have h := Rat.num_div_den q
  rw [hden] at h
  simpa using h

theorem parseQChars_qReprChars (q : ℚ) : parseQChars (qReprChars q) = some q := by
  by_cases hden : q.den = 1
  · have hq : qReprChars q = intReprChars q.num := by
      unfold qReprChars
      rw [if_pos hden]
    have ht : (intReprChars q.num).takeWhile (fun c => c ≠ '/')
        = intReprChars q.num := by
      rw [List.takeWhile_eq_self_iff]
      intro c hc
      simpa using intReprChars_no_slash c hc
    have hd : (intReprChars q.num).dropWhile (fun c => c ≠ '/') = [] := by
      rw [List.dropWhile_eq_nil_iff]
      intro c hc
      simpa using intReprChars_no_slash c hc
    unfold parseQChars
    rw [hq]
    simp only [ht, hd, parseIntChars_intReprChars, Option.map_some]
    simp [num_cast_eq_self hden]
  · have hq : qReprChars q = intReprChars q.num ++ '/' :: natReprChars q.den := by
      unfold qReprChars
      rw [if_neg hden]
    have h1 : ∀ a ∈ intReprChars q.num, (fun c => decide (c ≠ '/')) a = true := by
      intro a ha
      simpa using intReprChars_no_slash a ha
    have ht : (qReprChars q).takeWhile (fun c => c ≠ '/') = intReprChars q.num := by
      rw [hq]
      exact takeWhile_append_stop _ _ _ _ h1 (by decide)
    have hd : (qReprChars q).dropWhile (fun c => c ≠ '/')
        = '/' :: natReprChars q.den := by
      rw [hq]
      exact dropWhile_append_stop _ _ _ _ h1 (by decide)
    unfold parseQChars
    simp only [ht, hd, parseIntChars_intReprChars, parseNatChars_natReprChars]
    rw [if_pos q.den_nz]
    rw [Rat.num_div_den]

theorem parseJsonNumChars_jsonNumChars (x : JSNum) :
    parseJsonNumChars (jsonNumChars x) = some x := by
  match x with
  | none => rfl
  | some q =>
    have hne : qReprChars q ≠ ['n', 'u', 'l', 'l'] := by
      intro he
      have : 'n' ∈ qReprChars q := by
        rw [he]
        simp
      rcases mem_qReprChars this with h | h | h
      · exact absurd h (by decide)
      · exact absurd h (by decide)
      · exact absurd h (by decide)
    unfold parseJsonNumChars
    simp only [jsonNumChars, if_neg hne, parseQChars_qReprChars, Option.map_some]
    rfl

theorem expectPrefix_append (pat r : List Char) : expectPrefix pat (pat ++ r) = some r := by
  unfold expectPrefix
  rw [if_pos]
  · rw [List.drop_left]
  · rw [List.isPrefixOf_iff_prefix]
    exact List.prefix_append pat r

theorem jsonNum_take (x : JSNum) (sep : Char) (r : List Char)
    (hsep : sep = ',' ∨ sep = '\x7d') :
    (jsonNumChars x ++ sep :: r).takeWhile (fun c => c ≠ ',' ∧ c ≠ '\x7d')
      = jsonNumChars x ∧
    (jsonNumChars x ++ sep :: r).dropWhile (fun c => c ≠ ',' ∧ c ≠ '\x7d')
      = sep :: r := by
  have h1 : ∀ a ∈ jsonNumChars x,
      (fun c => decide (c ≠ ',' ∧ c ≠ '\x7d')) a = true := by
    intro a ha
    have h := jsonNumChars_value_char ha
    simp [h.2.1, h.2.2.1]
  have h2 : (fun c => decide (c ≠ ',' ∧ c ≠ '\x7d')) sep = false := by
    rcases hsep with h | h <;> (subst h; decide)
  exact ⟨takeWhile_append_stop _ _ _ _ h1 h2, dropWhile_append_stop _ _ _ _ h1 h2⟩

theorem decodeField_round (name : String) (sep : Char) (x : JSNum) (r : List Char)
    (hsep : sep = ',' ∨ sep = '\x7d') :
    decodeField name sep (('"' :: name.data ++ ['"', ':']) ++ (jsonNumChars x ++ sep :: r))
      = some (x, r) := by
  unfold decodeField
  rw [expectPrefix_append]
  simp only [Option.bind_eq_bind, Option.some_bind]
  rw [(jsonNum_take x sep r hsep).1, (jsonNum_take x sep r hsep).2,
    parseJsonNumChars_jsonNumChars]
  simp

theorem expectPrefix_cons (c : Char) (r : List Char) :
    expectPrefix [c] (c :: r) = some r :=
  expectPrefix_append [c] r

theorem decodeRecord_round (s : SamplePoint) : decodeRecord (encodeRecord s) = some s := by
  obtain ⟨g, m, t, f⟩ := s
  have e : encodeRecord ⟨g, m, t, f⟩ =
      '\x7b' :: (('"' :: "gpu".data ++ ['"', ':']) ++ (jsonNumChars g ++ ',' ::
        (('"' :: "mem".data ++ ['"', ':']) ++ (jsonNumChars m ++ ',' ::
          (('"' :: "temp".data ++ ['"', ':']) ++ (jsonNumChars t ++ ',' ::
            (('"' :: "fan".data ++ ['"', ':']) ++ (jsonNumChars f ++ '\x7d' :: [])))))))) := by
    simp [encodeRecord, encodeFields, fieldChars, joinComma, List.append_assoc]
  rw [e]
  unfold decodeRecord
  rw [expectPrefix_cons]
  simp only [Option.bind_eq_bind, Option.some_bind]
  rw [decodeField_round "gpu" ',' g _ (Or.inl rfl)]
  simp only [Option.some_bind]
  rw [decodeField_round "mem" ',' m _ (Or.inl rfl)]
  simp only [Option.some_bind]
  rw [decodeField_round "temp" ',' t _ (Or.inl rfl)]
  simp only [Option.some_bind]
  rw [decodeField_round "fan" '\x7d' f [] (Or.inr rfl)]
  simp

theorem splitNlAux_append (body : List Char) (hb : ∀ c ∈ body, c ≠ '\n') :
    ∀ (rest acc : List Char),
      splitNlAux (body ++ '\n' :: rest) acc = (acc ++ body) :: splitNlAux rest [] := by
  induction body with
  | nil =>
    intro rest acc
    simp [splitNlAux]
  | cons c cs ih =>
    intro rest acc
    have hc : c ≠ '\n' := hb c (by simp)
    simp only [List.cons_append, splitNlAux, if_neg hc, List.append_eq]
    rw [ih (fun d hd => hb d (by simp [hd])) rest (acc ++ [c])]
    simp

theorem splitNl_flatten (bodies : List (List Char))
    (hb : ∀ b ∈ bodies, ∀ c ∈ b, c ≠ '\n') :
    splitNl ((bodies.map (fun b => b ++ ['\n'])).flatten) = bodies := by
  induction bodies with
  | nil => rfl
  | cons b bs ih =>
    simp only [List.map_cons, List.flatten_cons]
    rw [show (b ++ ['\n']) ++ ((bs.map (fun b => b ++ ['\n'])).flatten)
        = b ++ '\n' :: ((bs.map (fun b => b ++ ['\n'])).flatten) by simp]
    unfold splitNl
    rw [splitNlAux_append b (hb b (by simp)) _ []]
    simp only [List.nil_append]
    congr 1
    exact ih (fun x hx => hb x (by simp [hx]))

theorem publishAll_sent (ls : List SamplePoint) :
    ∀ (s : AppletState), s.monitorProc = true → s.monitorStdin = true →
      publishAll ls s = { s with sent := s.sent ++ ls.map sendRecord } := by
  induction ls with
  | nil =>
    intro s hp hs
    simp [publishAll]
  | cons p ps ih =>
    intro s hp hs
    rw [publishAll, sendToMonitor_live_ok p s hp hs,
      ih { s with sent := s.sent ++ [sendRecord p] } hp hs]
    simp

theorem replay_sent (ps : List SamplePoint) :
    ∀ (i : ℕ) (s : AppletState), s.monitorProc = true → s.monitorStdin = true →
      replay (fun _ => true) i ps s = { s with sent := s.sent ++ ps.map sendRecord } := by
  induction ps with
  | nil =>
    intro i s hp hs
    simp [replay]
  | cons p ps ih =>
    intro i s hp hs
    rw [replay, sendToMonitor_live_ok p s hp hs,
      ih (i + 1) { s with sent := s.sent ++ [sendRecord p] } hp hs]
    simp

theorem openMonitor_spawn (h : List SamplePoint) (sent0 : List (List Char)) :
    openMonitor true (fun _ => true) ⟨h, false, false, sent0⟩
      = ⟨h, true, true, sent0 ++ h.map sendRecord⟩ := by
  unfold openMonitor
  simp only [Bool.false_eq_true, if_false, if_true]
  rw [replay_sent h 0 _ rfl rfl]

/-- C3: after a successful `_openMonitor()` on a dead Connection the
producer replays every sample of the history buffer `h`, each individually
encoded, written and flushed, in chronological order, before any of the
subsequently published live samples `ls`: the pipe carries exactly the
records of `h ++ ls` in order, and the spec-modelled consumer — cutting
the byte stream at newline delimiters and decoding each complete record —
reconstructs exactly `h ++ ls`, with no gaps and no duplicates. -/
theorem backfill_then_live (h ls : List SamplePoint) :
    (publishAll ls (openMonitor true (fun _ => true) ⟨h, false, false, []⟩)).sent
      = (h ++ ls).map sendRecord ∧
    consumerHistory (streamBytes ((h ++ ls).map sendRecord)) = h ++ ls := by
  constructor
  · rw [openMonitor_spawn h [], publishAll_sent ls _ rfl rfl]
    simp
  · unfold consumerHistory streamBytes
    have hmap : (h ++ ls).map sendRecord
        = ((h ++ ls).map encodeRecord).map (fun b => b ++ ['\n']) := by
      rw [List.map_map]
      rfl
    rw [hmap, splitNl_flatten _ (by
      intro b hbm
      obtain ⟨sp, _, rfl⟩ := List.mem_map.mp hbm
      exact encodeRecord_no_newline sp)]
    induction (h ++ ls) with
    | nil => rfl
    | cons a l ihl => simp [List.filterMap_cons, decodeRecord_round, ihl]

end NvidiaApplet
